import Mathlib

/-!
Shallow embedding of the annotation core of `annotate.py`: the offset
validator/repairer (`validate_and_fix_annotation` with `find_exact_offset`),
the response sanitizer (`parse_llm_response`), and the statistics functions
(`compute_statistics`, `aggregate_statistics`).

Python strings are modelled as `List Char`.  `str.find`, slicing,
`str.strip`, `str.split` and the two `re.match` patterns used by the source
are embedded explicitly.  Character classes (`\d`, `\w`, whitespace) are
modelled over ASCII, which is the only range the source's own line grammar
produces or consumes.
-/

abbrev PyStr := List Char

/-- ASCII whitespace stripped by Python `str.strip()`. -/
def pyIsSpace (c : Char) : Bool :=
  c == ' ' || c == '\t' || c == '\n' || c == '\r' || c == '\x0b' || c == '\x0c'

/-- Python `str.lstrip()`. -/
def lstrip (s : PyStr) : PyStr := s.dropWhile pyIsSpace

/-- Python `str.rstrip()`, written recursively on the front of the list. -/
def rstrip : PyStr → PyStr
  | [] => []
  | c :: rest =>
    match rstrip rest with
    | [] => if pyIsSpace c then [] else [c]
    | d :: r => c :: d :: r

/-- Python `str.strip()`: remove leading and trailing whitespace. -/
def pyStrip (s : PyStr) : PyStr := lstrip (rstrip s)

/-- Python `text.find(span)` (leftmost occurrence, `none` for `-1`). -/
def strFind : PyStr → PyStr → Option Nat
  | [], span => if span.isPrefixOf [] then some 0 else none
  | c :: rest, span =>
    if span.isPrefixOf (c :: rest) then some 0
    else (strFind rest span).map (· + 1)

/-- Python slice `text[start:stop]` for non-negative bounds (clamping). -/
def pySlice (text : PyStr) (start stop : Nat) : PyStr :=
  (text.take stop).drop start

/-- Source `find_exact_offset`: `idx = text.find(span)`; on success return
`(idx, idx + len(span))`, otherwise `None, None`. -/
def find_exact_offset (text span : PyStr) : Option (Nat × Nat) :=
  (strFind text span).map (fun idx => (idx, idx + span.length))

/-- The guarded slice computed by `validate_and_fix_annotation`:
`text[start:end] if start < len(text) and end <= len(text) else ""`. -/
def directActual (text : PyStr) (start stop : Nat) : PyStr :=
  if start < text.length ∧ stop ≤ text.length then pySlice text start stop else []

/-- The repair cascade applied by `validate_and_fix_annotation` to one parsed
entity triple: direct check, exact re-search, trimmed re-search, else keep. -/
def repairEntity (text : PyStr) (start stop : Nat) (span_text : PyStr) :
    Nat × Nat × PyStr :=
  let actual := directActual text start stop
  if actual = span_text then (start, stop, span_text)
  else
    match find_exact_offset text span_text with
    | some (s, e) => (s, e, span_text)
    | none =>
      let clean_span := pyStrip span_text
      match find_exact_offset text clean_span with
      | some (s, e) => (s, e, clean_span)
      | none => (start, stop, span_text)

/-- ASCII digit, the `\d` class of the source's patterns. -/
def pyIsDigit (c : Char) : Bool := '0' ≤ c && c ≤ '9'

/-- Word character, the `\w` class of the source's patterns (ASCII range). -/
def pyIsWord (c : Char) : Bool := c.isAlpha || pyIsDigit c || c == '_'

/-- Decimal value of a digit run (the `int(...)` applied to a `\d+` group). -/
def digitsToNat (ds : PyStr) : Nat :=
  ds.foldl (fun n c => n * 10 + (c.toNat - '0'.toNat)) 0

/-- Decimal rendering of a natural number, as Python string formatting of an
`int` produces it. -/
def natToDigitsAux : Nat → Nat → PyStr
  | 0, _ => []
  | fuel + 1, n =>
    if n < 10 then [Char.ofNat (48 + n)]
    else natToDigitsAux fuel (n / 10) ++ [Char.ofNat (48 + n % 10)]

def natToStr (n : Nat) : PyStr := natToDigitsAux (n + 1) n

/-- The entity-line pattern `(T\d+)\t(\w+) (\d+) (\d+)\t(.+)` matched with
`re.match`.  Token classes are disjoint from the delimiters that follow them,
so greedy matching is equivalent to taking each maximal run; `.+` captures up
to the first newline (`.` does not match a newline) and requires at least one
character; `re.match` ignores anything after the match. -/
def parseEntityLine (line : PyStr) : Option (PyStr × PyStr × Nat × Nat × PyStr) :=
  match line with
  | [] => none
  | c :: rest =>
    if c = 'T' then
      let ds := rest.takeWhile pyIsDigit
      let r1 := rest.dropWhile pyIsDigit
      if ds = [] then none
      else
        match r1 with
        | '\t' :: r2 =>
          let w := r2.takeWhile pyIsWord
          let r3 := r2.dropWhile pyIsWord
          if w = [] then none
          else
            match r3 with
            | ' ' :: r4 =>
              let d1 := r4.takeWhile pyIsDigit
              let r5 := r4.dropWhile pyIsDigit
              if d1 = [] then none
              else
                match r5 with
                | ' ' :: r6 =>
                  let d2 := r6.takeWhile pyIsDigit
                  let r7 := r6.dropWhile pyIsDigit
                  if d2 = [] then none
                  else
                    match r7 with
                    | '\t' :: r8 =>
                      let txt := r8.takeWhile (fun ch => !(ch == '\n'))
                      if txt = [] then none
                      else some ('T' :: ds, w, digitsToNat d1, digitsToNat d2, txt)
                    | _ => none
                | _ => none
            | _ => none
        | _ => none
    else none

/-- Body of the `validate_and_fix_annotation` loop for one already-stripped,
non-empty line: entity lines that match the pattern are repaired and
re-serialized; anything else passes through verbatim. -/
def fixLine (text : PyStr) (line : PyStr) : PyStr :=
  if line.head? = some 'T' then
    match parseEntityLine line with
    | some (eid, etype, start, stop, span_text) =>
      let r := repairEntity text start stop span_text
      eid ++ '\t' :: (etype ++ ' ' :: (natToStr r.1 ++ ' ' :: (natToStr r.2.1 ++ '\t' :: r.2.2)))
    | none => line
  else line

/-- Source `validate_and_fix_annotation`: strip each line, drop empty lines,
process every remaining line with the repair logic, in order. -/
def validate_and_fix_annotation (text : PyStr) : List PyStr → List PyStr
  | [] => []
  | l :: ls =>
    let line := pyStrip l
    if line = [] then validate_and_fix_annotation text ls
    else fixLine text line :: validate_and_fix_annotation text ls

/-- The fixed seven-counter map built by `compute_statistics`. -/
structure Stats where
  MajorClaim : Nat
  Claim : Nat
  Premise : Nat
  Stance_For : Nat
  Stance_Against : Nat
  supports : Nat
  attacks : Nat
deriving DecidableEq, Repr

def zeroStats : Stats := ⟨0, 0, 0, 0, 0, 0, 0⟩

/-- Source `if entity_type in stats: stats[entity_type] += 1`: the key is
looked up among all seven counter names, not only the three entity types. -/
def incKey (s : Stats) (k : PyStr) : Stats :=
  if k = "MajorClaim".data then { s with MajorClaim := s.MajorClaim + 1 }
  else if k = "Claim".data then { s with Claim := s.Claim + 1 }
  else if k = "Premise".data then { s with Premise := s.Premise + 1 }
  else if k = "Stance_For".data then { s with Stance_For := s.Stance_For + 1 }
  else if k = "Stance_Against".data then { s with Stance_Against := s.Stance_Against + 1 }
  else if k = "supports".data then { s with supports := s.supports + 1 }
  else if k = "attacks".data then { s with attacks := s.attacks + 1 }
  else s

/-- Python substring membership `sub in s`. -/
def containsSub (s sub : PyStr) : Bool := (strFind s sub).isSome

/-- Body of the `compute_statistics` loop for one raw line. -/
def statsUpdate (s : Stats) (l : PyStr) : Stats :=
  let line := pyStrip l
  if line = [] then s
  else if line.head? = some 'T' then
    match parseEntityLine line with
    | some (_, etype, _, _, _) => incKey s etype
    | none => s
  else if line.head? = some 'A' then
    if containsSub line "Stance".data then
      if containsSub line "For".data then { s with Stance_For := s.Stance_For + 1 }
      else if containsSub line "Against".data then
        { s with Stance_Against := s.Stance_Against + 1 }
      else s
    else s
  else if line.head? = some 'R' then
    if containsSub line "supports".data then { s with supports := s.supports + 1 }
    else if containsSub line "attacks".data then { s with attacks := s.attacks + 1 }
    else s
  else s

/-- Source `compute_statistics`. -/
def compute_statistics (annotation_lines : List PyStr) : Stats :=
  annotation_lines.foldl statsUpdate zeroStats

/-- Element-wise sum of two counter maps. -/
def addStats (a b : Stats) : Stats :=
  ⟨a.MajorClaim + b.MajorClaim, a.Claim + b.Claim, a.Premise + b.Premise,
    a.Stance_For + b.Stance_For, a.Stance_Against + b.Stance_Against,
    a.supports + b.supports, a.attacks + b.attacks⟩

/-- Source `aggregate_statistics`: fold over the per-document results, adding
only the present (`some`) entries; `none` stands for a failed document, whose
falsy entry is skipped by `if stats:`. -/
def aggregate_statistics (all_stats : List (Option Stats)) : Stats :=
  all_stats.foldl
    (fun total st =>
      match st with
      | some s => addStats total s
      | none => total)
    zeroStats

/-- Element-wise sum of a list of counter maps (specification-side reading of
"aggregate equals the element-wise sum"). -/
def sumStats (ls : List Stats) : Stats :=
  ⟨(ls.map Stats.MajorClaim).sum, (ls.map Stats.Claim).sum,
    (ls.map Stats.Premise).sum, (ls.map Stats.Stance_For).sum,
    (ls.map Stats.Stance_Against).sum, (ls.map Stats.supports).sum,
    (ls.map Stats.attacks).sum⟩

/-- Prepend a character to the first chunk of a split (helper for `splitNl`). -/
def consHead (c : Char) : List PyStr → List PyStr
  | [] => [[c]]
  | h :: t => (c :: h) :: t

/-- Python `s.split('\n')`. -/
def splitNl : PyStr → List PyStr
  | [] => [[]]
  | c :: rest => if c = '\n' then [] :: splitNl rest else consHead c (splitNl rest)

/-- Body of the `parse_llm_response` loop for one raw line: strip it, drop it
if empty or a code fence, keep it if it starts with `T`, `A` or `R`. -/
def keepLine (l : PyStr) : Option PyStr :=
  let line := pyStrip l
  if line.isEmpty then none
  else if "```".data.isPrefixOf line then none
  else if line.head? == some 'T' || line.head? == some 'A' || line.head? == some 'R' then
    some line
  else none

/-- Source `parse_llm_response`: strip the whole response, split on newlines,
filter each line with the sanitizing rules. -/
def parse_llm_response (response_text : PyStr) : List PyStr :=
  (splitNl (pyStrip response_text)).filterMap keepLine

/-! ### Basic facts about the embedded string operations -/

theorem nil_pref (b : PyStr) : ([] : PyStr).isPrefixOf b = true := by
  cases b <;> rfl

theorem pref_take {a b : PyStr} (h : a.isPrefixOf b = true) : b.take a.length = a := by
  induction a generalizing b with
  | nil => simp
  | cons x xs ih =>
    cases b with
    | nil => simp [List.isPrefixOf] at h
    | cons y ys =>
      simp only [List.isPrefixOf, Bool.and_eq_true, beq_iff_eq] at h
      obtain ⟨h1, h2⟩ := h
      simp [List.take, h1, ih h2]

theorem take_pref : ∀ (n : Nat) (l : PyStr), (l.take n).isPrefixOf l = true := by
  intro n l
  induction l generalizing n with
  | nil => simp [List.isPrefixOf]
  | cons x xs ih =>
    cases n with
    | zero => simp [List.isPrefixOf]
    | succ m => simp [List.isPrefixOf, ih]

theorem strFind_some_pref : ∀ (text span : PyStr) (i : Nat),
    strFind text span = some i → span.isPrefixOf (text.drop i) = true := by
  intro text
  induction text with
  | nil =>
    intro span i h
    simp only [strFind] at h
    split at h
    · rename_i hp
      cases h
      simpa using hp
    · cases h
  | cons c rest ih =>
    intro span i h
    simp only [strFind] at h
    split at h
    · rename_i hp
      cases h
      simpa using hp
    · simp only [Option.map_eq_some'] at h
      obtain ⟨j, hj, rfl⟩ := h
      simpa using ih span j hj

theorem strFind_leftmost : ∀ (text span : PyStr) (i : Nat),
    strFind text span = some i →
    ∀ j, span.isPrefixOf (text.drop j) = true → i ≤ j := by
  intro text
  induction text with
  | nil =>
    intro span i h j hj
    simp only [strFind] at h
    split at h
    · cases h; exact Nat.zero_le j
    · cases h
  | cons c rest ih =>
    intro span i h j hj
    simp only [strFind] at h
    split at h
    · cases h; exact Nat.zero_le j
    · rename_i hp
      simp only [Option.map_eq_some'] at h
      obtain ⟨k, hk, rfl⟩ := h
      cases j with
      | zero => exact absurd (by simpa using hj) hp
      | succ m =>
        have := ih span k hk m (by simpa using hj)
        omega

theorem strFind_none_not_pref : ∀ (text span : PyStr),
    strFind text span = none → ∀ j, ¬ span.isPrefixOf (text.drop j) = true := by
  intro text
  induction text with
  | nil =>
    intro span h j hj
    simp only [strFind] at h
    split at h
    · cases h
    · rename_i hp
      exact hp (by simpa using hj)
  | cons c rest ih =>
    intro span h j hj
    simp only [strFind] at h
    split at h
    · cases h
    · rename_i hp
      simp only [Option.map_eq_none'] at h
      cases j with
      | zero => exact hp (by simpa using hj)
      | succ m => exact ih span h m (by simpa using hj)

theorem strFind_isSome_of_pref {text span : PyStr} {j : Nat}
    (h : span.isPrefixOf (text.drop j) = true) : (strFind text span).isSome = true := by
  cases hf : strFind text span with
  | none => exact absurd h (strFind_none_not_pref text span hf j)
  | some i => rfl

theorem pySlice_nil_of_le {text : PyStr} {s e : Nat} (h : e ≤ s) :
    pySlice text s e = [] := by
  apply List.drop_eq_nil_of_le
  calc (text.take e).length = e ⊓ text.length := List.length_take e text
    _ ≤ e := inf_le_left
    _ ≤ s := h

theorem pySlice_eq_take_drop (text : PyStr) (s e : Nat) :
    pySlice text s e = (text.drop s).take (e - s) := by
  unfold pySlice
  rw [List.drop_take]

theorem pySlice_of_pref {text span : PyStr} {i : Nat}
    (h : span.isPrefixOf (text.drop i) = true) :
    pySlice text i (i + span.length) = span := by
  rw [pySlice_eq_take_drop]
  simp only [Nat.add_sub_cancel_left]
  exact pref_take h

theorem lt_of_pySlice_ne_nil {text : PyStr} {s e : Nat}
    (h : pySlice text s e ≠ []) : s < e := by
  by_contra hc
  push_neg at hc
  exact h (pySlice_nil_of_le hc)

theorem pref_of_pySlice_eq {text span : PyStr} {s e : Nat}
    (h : pySlice text s e = span) : span.isPrefixOf (text.drop s) = true := by
  subst h
  rw [pySlice_eq_take_drop]
  exact take_pref _ _

theorem directActual_ne_of_not_match {text span : PyStr} {start stop : Nat}
    (hspan : span ≠ [])
    (hwrong : ¬ (start ≤ stop ∧ stop ≤ text.length ∧ pySlice text start stop = span)) :
    directActual text start stop ≠ span := by
  intro h
  unfold directActual at h
  split at h
  · rename_i hg
    have hlt : start < stop := by
      by_contra hle
      push_neg at hle
      have hnil : span = [] := by rw [← h, pySlice_nil_of_le hle]
      exact hspan hnil
    exact hwrong ⟨Nat.le_of_lt hlt, hg.2, h⟩
  · exact hspan h.symm

theorem directActual_ne_of_find_none {text span : PyStr} {start stop : Nat}
    (hraw : strFind text span = none) :
    directActual text start stop ≠ span := by
  intro h
  unfold directActual at h
  split at h
  · exact strFind_none_not_pref text span hraw start (pref_of_pySlice_eq h)
  · exact strFind_none_not_pref text span hraw 0 (h ▸ nil_pref (text.drop 0))

/-! ### Claims about the offset validator/repairer -/

/-- C6: if the stated `[start, end)` range is well-formed for the document and
its slice already equals the span text, the repair step returns the identical
`(start, end, text)` triple unchanged. -/
theorem direct_match_idempotent (text span : PyStr) (start stop : Nat)
    (_h1 : start ≤ stop) (h2 : stop ≤ text.length)
    (h3 : pySlice text start stop = span) :
    repairEntity text start stop span = (start, stop, span) := by
  unfold repairEntity directActual
  by_cases hg : start < text.length ∧ stop ≤ text.length
  · simp [hg, h3]
  · have hns : text.length ≤ start := by
      by_contra hlt
      push_neg at hlt
      exact hg ⟨hlt, h2⟩
    have hes : stop ≤ start := le_trans h2 hns
    have hspan : span = [] := by rw [← h3, pySlice_nil_of_le hes]
    simp [hg, hspan]

/-- C6 witness: a correctly stated triple over the document `hello` is
returned unchanged. -/
theorem direct_match_idempotent_witness :
    repairEntity "hello".data 0 5 "hello".data = (0, 5, "hello".data) :=
  direct_match_idempotent "hello".data "hello".data 0 5 (by decide) (by decide)
    (by decide)

/-- C7: when the span text occurs in the document neither verbatim nor in
whitespace-trimmed form, the repair step keeps the original
`(start, end, span_text)` triple unchanged, including invalid offsets. -/
theorem irrecoverable_span_preserved (text span : PyStr) (start stop : Nat)
    (hraw : strFind text span = none)
    (htrim : strFind text (pyStrip span) = none) :
    repairEntity text start stop span = (start, stop, span) := by
  unfold repairEntity
  have hne := @directActual_ne_of_find_none text span start stop hraw
  simp [hne, find_exact_offset, hraw, htrim]

/-- C7 witness: `zzz` occurs nowhere in `defg`, so the invalid offsets `9, 4`
survive the repair step. -/
theorem irrecoverable_span_preserved_witness :
    repairEntity "defg".data 9 4 "zzz".data = (9, 4, "zzz".data) :=
  irrecoverable_span_preserved "defg".data "zzz".data 9 4 (by decide) (by decide)

/-- C2: an entity line whose stated offsets are wrong but whose span text
occurs verbatim in the document is repaired to the bounds of the leftmost
occurrence of the span text: the repaired slice equals the span text, every
occurrence lies at or after the chosen position, and the span text itself is
unchanged. -/
theorem wrong_offset_research_leftmost (text span : PyStr) (start stop : Nat)
    (hspan : span ≠ [])
    (hwrong : ¬ (start ≤ stop ∧ stop ≤ text.length ∧ pySlice text start stop = span))
    (hocc : (strFind text span).isSome = true) :
    ∃ i, strFind text span = some i ∧
      repairEntity text start stop span = (i, i + span.length, span) ∧
      pySlice text i (i + span.length) = span ∧
      ∀ j, span.isPrefixOf (text.drop j) = true → i ≤ j := by
  obtain ⟨i, hi⟩ := Option.isSome_iff_exists.mp hocc
  refine ⟨i, hi, ?_, pySlice_of_pref (strFind_some_pref text span i hi),
    strFind_leftmost text span i hi⟩
  unfold repairEntity
  have hne := directActual_ne_of_not_match hspan hwrong
  simp [hne, find_exact_offset, hi]

/-- C2 witness: in `abab` the span `ab` occurs at positions 0 and 2; with the
wrong stated offsets `1, 3` the repair selects the leftmost position 0. -/
theorem wrong_offset_research_leftmost_witness :
    ∃ i, strFind "abab".data "ab".data = some i ∧
      repairEntity "abab".data 1 3 "ab".data = (i, i + "ab".data.length, "ab".data) ∧
      pySlice "abab".data i (i + "ab".data.length) = "ab".data ∧
      ∀ j, "ab".data.isPrefixOf ("abab".data.drop j) = true → i ≤ j :=
  wrong_offset_research_leftmost "abab".data "ab".data 1 3 (by decide) (by decide)
    (by decide)

/-- C5: when the span text is absent from the document but its
whitespace-trimmed form occurs, repair succeeds with the bounds of the
leftmost occurrence of the trimmed form, and the stored text is replaced by
the trimmed form, which differs from the original span text. -/
theorem trimmed_fallback (text span : PyStr) (start stop : Nat)
    (hraw : strFind text span = none)
    (htrim : (strFind text (pyStrip span)).isSome = true) :
    ∃ i, strFind text (pyStrip span) = some i ∧
      repairEntity text start stop span = (i, i + (pyStrip span).length, pyStrip span) ∧
      pySlice text i (i + (pyStrip span).length) = pyStrip span ∧
      (∀ j, (pyStrip span).isPrefixOf (text.drop j) = true → i ≤ j) ∧
      pyStrip span ≠ span := by
  obtain ⟨i, hi⟩ := Option.isSome_iff_exists.mp htrim
  have hne : pyStrip span ≠ span := by
    intro he
    rw [he, hraw] at hi
    cases hi
  refine ⟨i, hi, ?_, pySlice_of_pref (strFind_some_pref text _ i hi),
    strFind_leftmost text _ i hi, hne⟩
  unfold repairEntity
  have hda := @directActual_ne_of_find_none text span start stop hraw
  simp [hda, find_exact_offset, hraw, hi]

/-- C5 witness: the span ` hello ` does not occur in `hello world`, but its
trimmed form `hello` does, at position 0; the output triple stores the
trimmed text. -/
theorem trimmed_fallback_witness :
    ∃ i, strFind "hello world".data (pyStrip " hello ".data) = some i ∧
      repairEntity "hello world".data 2 9 " hello ".data =
        (i, i + (pyStrip " hello ".data).length, pyStrip " hello ".data) ∧
      pySlice "hello world".data i (i + (pyStrip " hello ".data).length) =
        pyStrip " hello ".data ∧
      (∀ j, (pyStrip " hello ".data).isPrefixOf ("hello world".data.drop j) = true →
        i ≤ j) ∧
      pyStrip " hello ".data ≠ " hello ".data :=
  trimmed_fallback "hello world".data " hello ".data 2 9 (by decide) (by decide)

/-- C1 (amended): whenever the repair lookup can succeed - the span text or
its whitespace-trimmed form occurs in the document, which subsumes the
direct-check case - the repaired triple satisfies the Entity invariant:
`start ≤ end` and the stored text equals the document slice `[start, end)`. -/
theorem repaired_entity_invariant (text span : PyStr) (start stop : Nat)
    (hspan : span ≠ [])
    (hsucc : (strFind text span).isSome = true ∨
      (strFind text (pyStrip span)).isSome = true) :
    (repairEntity text start stop span).1 ≤ (repairEntity text start stop span).2.1 ∧
    pySlice text (repairEntity text start stop span).1
        (repairEntity text start stop span).2.1 =
      (repairEntity text start stop span).2.2 := by
  by_cases hda : directActual text start stop = span
  · have hd : repairEntity text start stop span = (start, stop, span) := by
      unfold repairEntity
      simp [hda]
    rw [hd]
    unfold directActual at hda
    split at hda
    · have hne2 : pySlice text start stop ≠ [] := by
        rw [hda]
        exact hspan
      exact ⟨Nat.le_of_lt (lt_of_pySlice_ne_nil hne2), hda⟩
    · exact absurd hda.symm hspan
  · cases hf : strFind text span with
    | some i =>
      have hr : repairEntity text start stop span = (i, i + span.length, span) := by
        unfold repairEntity
        simp [hda, find_exact_offset, hf]
      rw [hr]
      exact ⟨Nat.le_add_right i span.length,
        pySlice_of_pref (strFind_some_pref text span i hf)⟩
    | none =>
      have ht : (strFind text (pyStrip span)).isSome = true := by
        rcases hsucc with h | h
        · rw [hf] at h
          cases h
        · exact h
      obtain ⟨j, hj⟩ := Option.isSome_iff_exists.mp ht
      have hr : repairEntity text start stop span =
          (j, j + (pyStrip span).length, pyStrip span) := by
        unfold repairEntity
        simp [hda, find_exact_offset, hf, hj]
      rw [hr]
      exact ⟨Nat.le_add_right _ _,
        pySlice_of_pref (strFind_some_pref text _ j hj)⟩

/-- C1 (amended) witness: span `b` occurs in `abc`, so even with out-of-range
stated offsets `9, 9` the repaired triple satisfies the invariant. -/
theorem repaired_entity_invariant_witness :
    (repairEntity "abc".data 9 9 "b".data).1 ≤
      (repairEntity "abc".data 9 9 "b".data).2.1 ∧
    pySlice "abc".data (repairEntity "abc".data 9 9 "b".data).1
        (repairEntity "abc".data 9 9 "b".data).2.1 =
      (repairEntity "abc".data 9 9 "b".data).2.2 :=
  repaired_entity_invariant "abc".data "b".data 9 9 (by decide) (Or.inl (by decide))

/-- C1 counterexample: over the document `abc`, the entity line
`T1	Claim 5 2	xyz` cannot be repaired (neither `xyz` nor its trimmed form
occurs), is emitted by `validate_and_fix_annotation` unchanged, and its triple
violates the claimed invariant: `start = 5 > 2 = end` and the slice differs
from the stored text. -/
theorem entity_invariant_counterexample :
    validate_and_fix_annotation "abc".data ["T1\tClaim 5 2\txyz".data] =
      ["T1\tClaim 5 2\txyz".data] ∧
    repairEntity "abc".data 5 2 "xyz".data = (5, 2, "xyz".data) ∧
    ¬ (5 ≤ 2 ∧ pySlice "abc".data 5 2 = "xyz".data) := by
  exact ⟨by decide, by decide, by decide⟩

/-! ### Claims about the statistics aggregator -/

theorem parseEntityLine_head {l : PyStr} {x : PyStr × PyStr × Nat × Nat × PyStr}
    (h : parseEntityLine l = some x) : l.head? = some 'T' := by
  cases l with
  | nil => exact absurd h (by simp [parseEntityLine])
  | cons c rest =>
    by_cases hc : c = 'T'
    · simp [hc]
    · rw [show parseEntityLine (c :: rest) = none by simp [parseEntityLine, hc]] at h
      cases h

theorem containsSub_iff (s sub : PyStr) :
    containsSub s sub = true ↔ ∃ i, sub.isPrefixOf (s.drop i) = true := by
  constructor
  · intro h
    obtain ⟨i, hi⟩ := Option.isSome_iff_exists.mp h
    exact ⟨i, strFind_some_pref s sub i hi⟩
  · rintro ⟨i, hi⟩
    exact strFind_isSome_of_pref hi

/-- C3 (amended): for an entity line matching the entity pattern, the counter
named by the type token is the one incremented exactly when the token is one
of the seven counter names of the statistics map (not only the three entity
types); a type token outside those seven changes no counter. -/
theorem entity_type_counter (s : Stats) (l eid etype : PyStr) (a b : Nat) (sp : PyStr)
    (hp : parseEntityLine (pyStrip l) = some (eid, etype, a, b, sp)) :
    statsUpdate s l = incKey s etype ∧
    ((etype ≠ "MajorClaim".data ∧ etype ≠ "Claim".data ∧ etype ≠ "Premise".data ∧
      etype ≠ "Stance_For".data ∧ etype ≠ "Stance_Against".data ∧
      etype ≠ "supports".data ∧ etype ≠ "attacks".data) → statsUpdate s l = s) := by
  have hhead : (pyStrip l).head? = some 'T' := parseEntityLine_head hp
  have hne : pyStrip l ≠ [] := by
    intro h
    rw [h] at hhead
    cases hhead
  have h1 : statsUpdate s l = incKey s etype := by
    unfold statsUpdate
    simp [hne, hhead, hp]
  refine ⟨h1, fun hk => ?_⟩
  rw [h1]
  unfold incKey
  simp [hk.1, hk.2.1, hk.2.2.1, hk.2.2.2.1, hk.2.2.2.2.1, hk.2.2.2.2.2.1,
    hk.2.2.2.2.2.2]

/-- C3 (amended) witness: an entity line with type token `Foo`, which is none
of the seven counter names, changes no counter. -/
theorem entity_type_counter_witness :
    statsUpdate zeroStats "T1\tFoo 0 5\thello".data = zeroStats :=
  (entity_type_counter zeroStats "T1\tFoo 0 5\thello".data "T1".data "Foo".data 0 5
    "hello".data (by decide)).2 (by decide)

/-- C3 counterexample: `T1	supports 0 5	hello` is an entity line whose type
token `supports` is none of the three recognized entity types, yet the
aggregator increments the `supports` relation counter for it instead of
changing no counter. -/
theorem entity_type_counter_counterexample :
    compute_statistics ["T1\tsupports 0 5\thello".data] =
      { MajorClaim := 0, Claim := 0, Premise := 0, Stance_For := 0,
        Stance_Against := 0, supports := 1, attacks := 0 } ∧
    parseEntityLine "T1\tsupports 0 5\thello".data =
      some ("T1".data, "supports".data, 0, 5, "hello".data) ∧
    "supports".data ≠ "MajorClaim".data ∧ "supports".data ≠ "Claim".data ∧
    "supports".data ≠ "Premise".data := by
  exact ⟨by decide, by decide, by decide, by decide, by decide⟩

/-- C4 (amended): for a relation line the `supports` membership test runs
first: a line containing `supports` anywhere increments the supports counter,
even when `attacks` occurs earlier in the line; `attacks` is counted only
when `supports` is absent; a line containing neither keyword changes no
counter. -/
theorem relation_keyword_priority (s : Stats) (l : PyStr)
    (hR : (pyStrip l).head? = some 'R') :
    ((∃ i, "supports".data.isPrefixOf ((pyStrip l).drop i) = true) →
      statsUpdate s l = { s with supports := s.supports + 1 }) ∧
    ((¬ ∃ i, "supports".data.isPrefixOf ((pyStrip l).drop i) = true) →
      (∃ i, "attacks".data.isPrefixOf ((pyStrip l).drop i) = true) →
      statsUpdate s l = { s with attacks := s.attacks + 1 }) ∧
    ((¬ ∃ i, "supports".data.isPrefixOf ((pyStrip l).drop i) = true) →
      (¬ ∃ i, "attacks".data.isPrefixOf ((pyStrip l).drop i) = true) →
      statsUpdate s l = s) := by
  have hne : pyStrip l ≠ [] := by
    intro h
    rw [h] at hR
    cases hR
  refine ⟨fun hs => ?_, fun hs ha => ?_, fun hs ha => ?_⟩
  · have hcs : containsSub (pyStrip l) "supports".data = true :=
      (containsSub_iff _ _).mpr hs
    unfold statsUpdate
    simp [hne, hR, hcs]
  · have hcs : containsSub (pyStrip l) "supports".data = false := by
      cases hh : containsSub (pyStrip l) "supports".data
      · rfl
      · exact absurd ((containsSub_iff _ _).mp hh) hs
    have hca : containsSub (pyStrip l) "attacks".data = true :=
      (containsSub_iff _ _).mpr ha
    unfold statsUpdate
    simp [hne, hR, hcs, hca]
  · have hcs : containsSub (pyStrip l) "supports".data = false := by
      cases hh : containsSub (pyStrip l) "supports".data
      · rfl
      · exact absurd ((containsSub_iff _ _).mp hh) hs
    have hca : containsSub (pyStrip l) "attacks".data = false := by
      cases hh : containsSub (pyStrip l) "attacks".data
      · rfl
      · exact absurd ((containsSub_iff _ _).mp hh) ha
    unfold statsUpdate
    simp [hne, hR, hcs, hca]

/-- C4 (amended) witness: a relation line containing `supports` increments the
supports counter. -/
theorem relation_keyword_priority_witness :
    statsUpdate zeroStats "R1\tsupports Arg1:T2 Arg2:T1".data =
      { zeroStats with supports := zeroStats.supports + 1 } :=
  (relation_keyword_priority zeroStats "R1\tsupports Arg1:T2 Arg2:T1".data
    (by decide)).1 ⟨3, by decide⟩

/-- C4 counterexample: in `R1	attacks Arg1:T1 Arg2:T2 supports` the keyword
`attacks` occurs first (position 3, versus position 27 for `supports`), yet
the aggregator increments the `supports` counter, because the source tests
`supports` membership first. -/
theorem relation_keyword_counterexample :
    compute_statistics ["R1\tattacks Arg1:T1 Arg2:T2 supports".data] =
      { MajorClaim := 0, Claim := 0, Premise := 0, Stance_For := 0,
        Stance_Against := 0, supports := 1, attacks := 0 } ∧
    strFind "R1\tattacks Arg1:T1 Arg2:T2 supports".data "attacks".data = some 3 ∧
    strFind "R1\tattacks Arg1:T1 Arg2:T2 supports".data "supports".data = some 27 := by
  exact ⟨by decide, by decide, by decide⟩

/-! ### Claims about batch aggregation -/

theorem addStats_zero (a : Stats) : addStats a zeroStats = a := by
  cases a
  simp [addStats, zeroStats]

theorem zero_addStats (a : Stats) : addStats zeroStats a = a := by
  cases a
  simp [addStats, zeroStats]

theorem addStats_assoc (a b c : Stats) :
    addStats (addStats a b) c = addStats a (addStats b c) := by
  cases a; cases b; cases c
  simp [addStats, Nat.add_assoc]

theorem sumStats_nil : sumStats [] = zeroStats := by
  simp [sumStats, zeroStats]

theorem sumStats_cons (s : Stats) (R : List Stats) :
    sumStats (s :: R) = addStats s (sumStats R) := by
  simp [sumStats, addStats]

theorem sumStats_perm {A B : List Stats} (h : A.Perm B) : sumStats A = sumStats B := by
  unfold sumStats
  simp only [Stats.mk.injEq]
  exact ⟨(h.map _).sum_eq, (h.map _).sum_eq, (h.map _).sum_eq, (h.map _).sum_eq,
    (h.map _).sum_eq, (h.map _).sum_eq, (h.map _).sum_eq⟩

theorem aggregate_statistics_eq_sum (l : List (Option Stats)) :
    aggregate_statistics l = sumStats (l.filterMap id) := by
  have key : ∀ (m : List (Option Stats)) (acc : Stats),
      m.foldl (fun total st => match st with | some s => addStats total s | none => total)
          acc =
        addStats acc (sumStats (m.filterMap id)) := by
    intro m
    induction m with
    | nil =>
      intro acc
      simp [sumStats_nil, addStats_zero]
    | cons o rest ih =>
      intro acc
      cases o with
      | none => simp [List.foldl_cons, List.filterMap_cons, ih]
      | some s =>
        simp only [List.foldl_cons, List.filterMap_cons, id_eq]
        rw [ih, sumStats_cons, ← addStats_assoc]
  unfold aggregate_statistics
  rw [key, zero_addStats]

/-- C9: the aggregate equals the element-wise sum over exactly the present
(successful) per-document statistics - `none` entries standing for failed
documents contribute nothing, whatever their number or position - and the
aggregate is invariant under permuting the order in which the per-document
statistics arrive. -/
theorem aggregate_sum_property (l : List (Option Stats)) :
    aggregate_statistics l = sumStats (l.filterMap id) ∧
    ∀ l', l.Perm l' → aggregate_statistics l = aggregate_statistics l' := by
  refine ⟨aggregate_statistics_eq_sum l, fun l' hp => ?_⟩
  rw [aggregate_statistics_eq_sum l, aggregate_statistics_eq_sum l']
  exact sumStats_perm (hp.filterMap id)

/-- C9 witness: a concrete batch with one failed document; the aggregate is
the element-wise sum of the two successful entries and is unchanged under a
reordering. -/
theorem aggregate_sum_property_witness :
    aggregate_statistics
        [some ⟨1, 2, 3, 4, 5, 6, 7⟩, none, some ⟨1, 0, 0, 0, 0, 0, 1⟩] =
      sumStats [⟨1, 2, 3, 4, 5, 6, 7⟩, ⟨1, 0, 0, 0, 0, 0, 1⟩] ∧
    aggregate_statistics
        [some ⟨1, 2, 3, 4, 5, 6, 7⟩, none, some ⟨1, 0, 0, 0, 0, 0, 1⟩] =
      aggregate_statistics
        [none, some ⟨1, 0, 0, 0, 0, 0, 1⟩, some ⟨1, 2, 3, 4, 5, 6, 7⟩] :=
  ⟨(aggregate_sum_property _).1, (aggregate_sum_property _).2 _ (by decide)⟩

/-! ### Line bookkeeping of the validator -/

/-- C10: the validator/repairer emits exactly one output line per input line
that is non-empty after whitespace trimming, in the original relative order -
the output is precisely the image of the trimmed non-empty input lines under
the per-line fixer - while lines that trim to empty are removed. -/
theorem validate_fix_shape (text : PyStr) (lines : List PyStr) :
    validate_and_fix_annotation text lines =
      ((lines.map pyStrip).filter (fun l => !l.isEmpty)).map (fixLine text) := by
  induction lines with
  | nil => rfl
  | cons l ls ih =>
    cases hl : pyStrip l with
    | nil => simp [ validate_and_fix_annotation, hl, ih]
    | cons c cs => simp [ validate_and_fix_annotation, hl, ih]

/-! ### Claims about the response sanitizer -/

theorem rstrip_cons (c : Char) (l : PyStr) :
    rstrip (c :: l) = match rstrip l with
      | [] => if pyIsSpace c then [] else [c]
      | d :: r => c :: d :: r := by
  rw [rstrip]

theorem splitNl_cons (c : Char) (rest : PyStr) :
    splitNl (c :: rest) =
      if c = '\n' then [] :: splitNl rest else consHead c (splitNl rest) := by
  rw [splitNl]

theorem consHead_ex (c : Char) (L : List PyStr) : ∃ h tl, consHead c L = h :: tl := by
  cases L with
  | nil => exact ⟨[c], [], rfl⟩
  | cons x xs => exact ⟨c :: x, xs, rfl⟩

theorem splitNl_ex (t : PyStr) : ∃ h tl, splitNl t = h :: tl := by
  cases t with
  | nil => exact ⟨[], [], rfl⟩
  | cons c rest =>
    rw [splitNl_cons]
    by_cases hc : c = '\n'
    · exact ⟨[], splitNl rest, by rw [if_pos hc]⟩
    · rw [if_neg hc]
      exact consHead_ex c (splitNl rest)

theorem rstrip_ws_nil {r : PyStr} (hr : r.all pyIsSpace = true) : rstrip r = [] := by
  induction r with
  | nil => rfl
  | cons c rest ih =>
    simp only [List.all_cons, Bool.and_eq_true] at hr
    rw [rstrip_cons, ih hr.2]
    simp [hr.1]

theorem rstrip_append_ws {r : PyStr} (hr : r.all pyIsSpace = true) :
    ∀ x : PyStr, rstrip (x ++ r) = rstrip x := by
  intro x
  induction x with
  | nil => simpa using rstrip_ws_nil hr
  | cons c x' ih =>
    rw [List.cons_append, rstrip_cons, ih, rstrip_cons]

theorem pyStrip_append_ws {r : PyStr} (hr : r.all pyIsSpace = true) (x : PyStr) :
    pyStrip (x ++ r) = pyStrip x := by
  unfold pyStrip
  rw [rstrip_append_ws hr]

theorem pyStrip_cons_ws {c : Char} (hc : pyIsSpace c = true) (l : PyStr) :
    pyStrip (c :: l) = pyStrip l := by
  unfold pyStrip
  rw [rstrip_cons]
  cases hr : rstrip l with
  | nil => simp [hc, lstrip]
  | cons d r => simp [lstrip, List.dropWhile_cons, hc]

theorem keepLine_ws {l : PyStr} (hl : l.all pyIsSpace = true) : keepLine l = none := by
  have hnil : pyStrip l = [] := by
    unfold pyStrip
    rw [rstrip_ws_nil hl]
    rfl
  unfold keepLine
  simp [hnil]

theorem keepLine_cons_ws {c : Char} (hc : pyIsSpace c = true) (l : PyStr) :
    keepLine (c :: l) = keepLine l := by
  unfold keepLine
  rw [pyStrip_cons_ws hc]

theorem keepLine_append_ws {r : PyStr} (hr : r.all pyIsSpace = true) (x : PyStr) :
    keepLine (x ++ r) = keepLine x := by
  unfold keepLine
  rw [pyStrip_append_ws hr]

theorem splitNl_ws {q : PyStr} (hq : q.all pyIsSpace = true) :
    ∀ l ∈ splitNl q, l.all pyIsSpace = true := by
  induction q with
  | nil =>
    intro l hl
    simp only [splitNl, List.mem_singleton] at hl
    simp [hl]
  | cons c rest ih =>
    simp only [List.all_cons, Bool.and_eq_true] at hq
    intro l hl
    rw [splitNl_cons] at hl
    by_cases hc : c = '\n'
    · rw [if_pos hc] at hl
      rcases List.mem_cons.mp hl with h | h
      · simp [h]
      · exact ih hq.2 l h
    · rw [if_neg hc] at hl
      obtain ⟨h0, t0, ht⟩ := splitNl_ex rest
      rw [ht] at hl
      simp only [consHead] at hl
      rcases List.mem_cons.mp hl with h | h
      · subst h
        simp only [List.all_cons, Bool.and_eq_true]
        refine ⟨hq.1, ih hq.2 h0 ?_⟩
        rw [ht]
        exact List.mem_cons_self _ _
      · refine ih hq.2 l ?_
        rw [ht]
        exact List.mem_cons_of_mem _ h

theorem filterMap_keep_ws {L : List PyStr} (h : ∀ l ∈ L, l.all pyIsSpace = true) :
    L.filterMap keepLine = [] := by
  induction L with
  | nil => rfl
  | cons x xs ih =>
    rw [List.filterMap_cons]
    rw [keepLine_ws (h x (List.mem_cons_self x xs))]
    exact ih fun l hl => h l (List.mem_cons_of_mem x hl)

theorem filterMap_consHead_ws {c : Char} (hc : pyIsSpace c = true) (L : List PyStr) :
    (consHead c L).filterMap keepLine = L.filterMap keepLine := by
  cases L with
  | nil =>
    have h1 : ([c] : PyStr).all pyIsSpace = true := by simp [hc]
    simp [consHead, List.filterMap_cons, keepLine_ws h1]
  | cons h t =>
    simp only [consHead, List.filterMap_cons, keepLine_cons_ws hc]

theorem filterMap_splitNl_ws_onLeft {p : PyStr} (hp : p.all pyIsSpace = true) :
    ∀ t : PyStr,
      (splitNl (p ++ t)).filterMap keepLine = (splitNl t).filterMap keepLine := by
  induction p with
  | nil => intro t; rfl
  | cons c p' ih =>
    simp only [List.all_cons, Bool.and_eq_true] at hp
    intro t
    rw [List.cons_append, splitNl_cons]
    by_cases hc : c = '\n'
    · rw [if_pos hc]
      have hnil : keepLine [] = none := keepLine_ws rfl
      simp only [List.filterMap_cons, hnil]
      exact ih hp.2 t
    · rw [if_neg hc, filterMap_consHead_ws hp.1]
      exact ih hp.2 t

theorem splitNl_append_ws {q : PyStr} (hq : q.all pyIsSpace = true) :
    ∀ a : PyStr, ∃ h t h' t' r,
      splitNl (a ++ q) = h :: t ∧ splitNl a = h' :: t' ∧
      r.all pyIsSpace = true ∧ h = h' ++ r ∧
      t.filterMap keepLine = t'.filterMap keepLine := by
  intro a
  induction a with
  | nil =>
    obtain ⟨hq0, tq0, hsp⟩ := splitNl_ex q
    refine ⟨hq0, tq0, [], [], hq0, by simpa using hsp, rfl, ?_, by simp, ?_⟩
    · refine splitNl_ws hq hq0 ?_
      rw [hsp]
      exact List.mem_cons_self _ _
    · refine filterMap_keep_ws fun l hl => splitNl_ws hq l ?_
      rw [hsp]
      exact List.mem_cons_of_mem _ hl
  | cons c a' ih =>
    obtain ⟨h, t, h', t', r, e1, e2, hr, he, hfm⟩ := ih
    by_cases hc : c = '\n'
    · have key : (splitNl (a' ++ q)).filterMap keepLine =
          (splitNl a').filterMap keepLine := by
        rw [e1, e2, List.filterMap_cons, List.filterMap_cons, he,
          keepLine_append_ws hr, hfm]
      refine ⟨[], splitNl (a' ++ q), [], splitNl a', [], ?_, ?_, rfl, by simp, key⟩
      · rw [List.cons_append, splitNl_cons, if_pos hc]
      · rw [splitNl_cons, if_pos hc]
    · refine ⟨c :: h, t, c :: h', t', r, ?_, ?_, hr, ?_, hfm⟩
      · rw [List.cons_append, splitNl_cons, if_neg hc, e1]
        rfl
      · rw [splitNl_cons, if_neg hc, e2]
        rfl
      · rw [he, List.cons_append]

theorem filterMap_splitNl_ws_onRight {q : PyStr} (hq : q.all pyIsSpace = true)
    (a : PyStr) :
    (splitNl (a ++ q)).filterMap keepLine = (splitNl a).filterMap keepLine := by
  obtain ⟨h, t, h', t', r, e1, e2, hr, he, hfm⟩ := splitNl_append_ws hq a
  rw [e1, e2, List.filterMap_cons, List.filterMap_cons, he,
    keepLine_append_ws hr, hfm]

theorem takeWhile_all (p : Char → Bool) (s : PyStr) : (s.takeWhile p).all p = true := by
  induction s with
  | nil => rfl
  | cons c rest ih =>
    by_cases hc : p c = true
    · simp [List.takeWhile_cons, hc, ih]
    · simp [List.takeWhile_cons, hc]

theorem rstrip_decomp : ∀ s : PyStr, ∃ q, q.all pyIsSpace = true ∧ s = rstrip s ++ q := by
  intro s
  induction s with
  | nil => exact ⟨[], rfl, rfl⟩
  | cons c s' ih =>
    obtain ⟨q, hq, he⟩ := ih
    cases hr : rstrip s' with
    | nil =>
      have hs' : s' = q := by
        rw [he, hr, List.nil_append]
      by_cases hc : pyIsSpace c = true
      · refine ⟨c :: s', ?_, ?_⟩
        · simp only [List.all_cons, Bool.and_eq_true]
          exact ⟨hc, hs' ▸ hq⟩
        · rw [rstrip_cons, hr]
          simp [hc]
      · refine ⟨q, hq, ?_⟩
        rw [rstrip_cons, hr]
        simp only [if_neg hc]
        rw [List.cons_append, List.nil_append, hs']
    | cons d r' =>
      refine ⟨q, hq, ?_⟩
      rw [rstrip_cons, hr, List.cons_append]
      congr 1
      rw [he, hr]

theorem filterMap_splitNl_strip (s : PyStr) :
    (splitNl (pyStrip s)).filterMap keepLine = (splitNl s).filterMap keepLine := by
  obtain ⟨q, hq, he⟩ := rstrip_decomp s
  have h1 : (splitNl s).filterMap keepLine =
      (splitNl (rstrip s)).filterMap keepLine := by
    conv_lhs => rw [he]
    exact filterMap_splitNl_ws_onRight hq (rstrip s)
  have h2 : (splitNl (rstrip s)).filterMap keepLine =
      (splitNl (lstrip (rstrip s))).filterMap keepLine := by
    conv_lhs => rw [← List.takeWhile_append_dropWhile pyIsSpace (rstrip s)]
    exact filterMap_splitNl_ws_onLeft (takeWhile_all pyIsSpace (rstrip s))
      (lstrip (rstrip s))
  rw [h1, h2]
  rfl

theorem pref_head_eq {p b : PyStr} (hne : p ≠ []) (h : p.isPrefixOf b = true) :
    b.head? = p.head? := by
  cases p with
  | nil => exact absurd rfl hne
  | cons a as =>
    cases b with
    | nil => simp [List.isPrefixOf] at h
    | cons c cs =>
      simp only [List.isPrefixOf, Bool.and_eq_true, beq_iff_eq] at h
      simp [h.1]

theorem keepLine_eq (l : PyStr) :
    keepLine l =
      if (pyStrip l).head? == some 'T' || (pyStrip l).head? == some 'A' ||
          (pyStrip l).head? == some 'R' then some (pyStrip l) else none := by
  unfold keepLine
  cases hu : pyStrip l with
  | nil => rfl
  | cons c cs =>
    by_cases hp : "```".data.isPrefixOf (c :: cs) = true
    · have hh : (c :: cs).head? = "```".data.head? := pref_head_eq (by decide) hp
      simp [hp, hh]
    · simp [hp]

theorem filterMap_keepLine_eq (L : List PyStr) :
    L.filterMap keepLine =
      (L.map pyStrip).filter
        (fun l => l.head? == some 'T' || l.head? == some 'A' || l.head? == some 'R') := by
  induction L with
  | nil => rfl
  | cons x xs ih =>
    rw [List.map_cons, List.filter_cons, List.filterMap_cons, keepLine_eq]
    by_cases hx : ((pyStrip x).head? == some 'T' || (pyStrip x).head? == some 'A' ||
        (pyStrip x).head? == some 'R') = true
    · simp [hx, ih]
    · simp [hx, ih]

theorem sanitize_pred_eq (l : PyStr) :
    (!l.isEmpty && !("```".data.isPrefixOf l) &&
        (l.head? == some 'T' || l.head? == some 'A' || l.head? == some 'R')) =
      (l.head? == some 'T' || l.head? == some 'A' || l.head? == some 'R') := by
  cases l with
  | nil => rfl
  | cons c cs =>
    by_cases hp : "```".data.isPrefixOf (c :: cs) = true
    · have hh : (c :: cs).head? = "```".data.head? := pref_head_eq (by decide) hp
      simp [hp, hh]
    · simp [hp]

/-- C8: the sanitizer returns exactly the trimmed lines of the raw response
that are non-empty, do not begin with three backticks, and whose first
character is `T`, `A` or `R`, in their original order; in particular, on the
response whose lines are `Here is my answer:`, a code fence, the entity line,
a code fence and an empty line, it yields exactly the entity line. -/
theorem sanitizer_filtering :
    (∀ s : PyStr, parse_llm_response s =
      ((splitNl s).map pyStrip).filter
        (fun l => !l.isEmpty && !("```".data.isPrefixOf l) &&
          (l.head? == some 'T' || l.head? == some 'A' || l.head? == some 'R'))) ∧
    parse_llm_response "Here is my answer:\n```\nT1\tClaim 0 5\thello\n```\n".data =
      ["T1\tClaim 0 5\thello".data] := by
  constructor
  · intro s
    unfold parse_llm_response
    rw [filterMap_splitNl_strip, filterMap_keepLine_eq]
    exact List.filter_congr fun x _ => (sanitize_pred_eq x).symm
  · decide
